import Mathlib

/-!
Verification of the ai-career-intelligence-platform repository.

The file shallowly embeds, in Lean, the parts of the code base that the
specification talks about:

* the agent classes under `backend/agents/` (`MarketScoutAgent`,
  `SkillStrategistAgent`, `OpportunityHunterAgent`), whose `execute_task`
  methods wrap every internal step in a try/except that converts an
  exception into a failing `AgentResult`;
* the mock market-data generators driven by `random.randint` /
  `random.uniform` / `random.choice` (modelled as functions of an explicit
  stream of pseudo-random draws);
* the `/status-options` endpoint of `api/job_applications.py`;
* the idealized deduplication / classification core described in the spec
  (Record Normalizer, Fingerprint Matcher, Email Classifier, Reconciliation
  Store).  The bodies of `services/deduplication_service.py`,
  `services/email_categorizer.py` and `services/email_job_integration.py`
  are not part of the repository snapshot — only their call sites are — so
  those components are modelled from the spec's own words, as is the
  `ApplicationStatus` enum imported (but not defined) by
  `api/job_applications.py`.

Machine integers do not matter anywhere (Python ints are unbounded), so
numbers are `Nat` / `Int` / `Rat`.  Strings are Lean `String`s, manipulated
through their underlying `List Char`.
-/

namespace CareerPlatform

/-! ## SkillStrategistAgent._analyze_skill_positioning
(src/backend/agents/skill_strategist_agent.py, lines 114-153)

`skill_market_data` is a dict whose insertion order is
high_demand, emerging, declining, stable_core; the categorisation loop
appends each current skill to the FIRST category list that contains it
(`break` after the first hit), matching case-sensitively. -/

def highDemandSkills : List String :=
  ["TypeScript", "React", "AWS", "Kubernetes", "Machine Learning", "Python"]

def emergingSkills : List String :=
  ["WebAssembly", "Rust", "Edge Computing", "LangChain", "Vector Databases"]

def decliningSkills : List String :=
  ["jQuery", "Flash", "Perl"]

def stableCoreSkills : List String :=
  ["JavaScript", "SQL", "Git", "HTML/CSS"]

/-- The per-category buckets built by `_analyze_skill_positioning`
(the `skill_categories` dict). -/
structure SkillCategories where
  high_demand : List String
  emerging : List String
  stable_core : List String
  declining : List String
  missing_high_value : List String
  deriving Repr, DecidableEq

/-- The categorisation loop of `_analyze_skill_positioning`: each current
skill goes to the first list of `skill_market_data` (iteration order
high_demand, emerging, declining, stable_core) that contains it. -/
def categorizeSkills (current_skills : List String) : SkillCategories :=
  { high_demand := current_skills.filter (fun s => s ∈ highDemandSkills)
    emerging := current_skills.filter
      (fun s => s ∉ highDemandSkills ∧ s ∈ emergingSkills)
    declining := current_skills.filter
      (fun s => s ∉ highDemandSkills ∧ s ∉ emergingSkills ∧ s ∈ decliningSkills)
    stable_core := current_skills.filter
      (fun s => s ∉ highDemandSkills ∧ s ∉ emergingSkills ∧ s ∉ decliningSkills ∧
        s ∈ stableCoreSkills)
    missing_high_value := highDemandSkills.filter
      (fun s => s.toLower ∉ current_skills.map String.toLower) }

/-- Result of `_analyze_skill_positioning` (the dict it returns). -/
structure SkillPositioning where
  skill_categories : SkillCategories
  positioning_score : Int
  market_readiness : String
  competitive_advantage : Bool
  modernization_needed : Bool
  deriving Repr, DecidableEq

/-- `SkillStrategistAgent._analyze_skill_positioning`:
`positioning_score = 10*|high_demand| + 8*|emerging| + 5*|stable_core|
- 3*|declining|`, and `market_readiness` is `High` above 30, `Medium`
above 15, otherwise `Developing`. -/
def analyze_skill_positioning (current_skills : List String) : SkillPositioning :=
  let cats := categorizeSkills current_skills
  let score : Int :=
    10 * cats.high_demand.length + 8 * cats.emerging.length +
      5 * cats.stable_core.length - 3 * cats.declining.length
  { skill_categories := cats
    positioning_score := score
    market_readiness :=
      if score > 30 then "High" else if score > 15 then "Medium" else "Developing"
    competitive_advantage := cats.emerging.length > 0
    modernization_needed := cats.declining.length > 0 }

/-! ## base_agent.AgentResult and the execute_task try/except wrappers
(src/backend/agents/base_agent.py lines 13-20 and the three agents)

Each agent's `execute_task` runs its internal steps inside `try:`; any
exception is caught and converted into a failing `AgentResult`.  The internal
steps (network calls, random data generation, AI calls) are embedded as an
`Except String D` value: `.ok d` when the awaited body returns data `d`,
`.error e` when it raises an exception with message `e`.  `execution_time`
(wall-clock) is not modelled. -/

structure AgentResult (D : Type) where
  success : Bool
  data : Except String D
  confidence_score : ℚ
  errors : List String
  recommendations : List String

/-- The dispatch at the top of `MarketScoutAgent.execute_task`
(market_scout_agent.py lines 31-40): three known task types, otherwise
`raise ValueError(f"Unknown task type: {task_type}")`. -/
def marketScoutBody {D : Type} (task_type : Option String)
    (daily_scan company_intel skill_demand : Except String D) : Except String D :=
  if task_type = some "daily_market_scan" then daily_scan
  else if task_type = some "company_intelligence" then company_intel
  else if task_type = some "skill_demand_analysis" then skill_demand
  else .error ("Unknown task type: " ++
    (match task_type with | some t => t | none => "None"))

/-- `MarketScoutAgent.execute_task` (market_scout_agent.py lines 25-66):
on success `AgentResult(success=True, confidence_score=0.85,
recommendations=self._generate_recommendations(result_data))`; on exception
`AgentResult(success=False, data={'error': e}, confidence_score=0.0,
errors=[str(e)])`. -/
def MarketScoutAgent.execute_task {D : Type} (task_type : Option String)
    (daily_scan company_intel skill_demand : Except String D)
    (generate_recommendations : D → List String) : AgentResult D :=
  match marketScoutBody task_type daily_scan company_intel skill_demand with
  | .ok d =>
    { success := true, data := .ok d, confidence_score := 85/100,
      errors := [], recommendations := generate_recommendations d }
  | .error e =>
    { success := false, data := .error e, confidence_score := 0,
      errors := [e], recommendations := [] }

/-- `SkillStrategistAgent.execute_task` (skill_strategist_agent.py lines
44-75): body is `_analyze_skill_strategy`; success confidence 0.90. -/
def SkillStrategistAgent.execute_task {D : Type}
    (analyze_skill_strategy : Except String D)
    (generate_skill_recommendations : D → List String) : AgentResult D :=
  match analyze_skill_strategy with
  | .ok d =>
    { success := true, data := .ok d, confidence_score := 90/100,
      errors := [], recommendations := generate_skill_recommendations d }
  | .error e =>
    { success := false, data := .error e, confidence_score := 0,
      errors := [e], recommendations := [] }

/-- `OpportunityHunterAgent.execute_task` (opportunity_hunter_agent.py lines
28-59): body is `_discover_hidden_opportunities`; success confidence 0.85. -/
def OpportunityHunterAgent.execute_task {D : Type}
    (discover_hidden_opportunities : Except String D)
    (generate_opportunity_recommendations : D → List String) : AgentResult D :=
  match discover_hidden_opportunities with
  | .ok d =>
    { success := true, data := .ok d, confidence_score := 85/100,
      errors := [], recommendations := generate_opportunity_recommendations d }
  | .error e =>
    { success := false, data := .error e, confidence_score := 0,
      errors := [e], recommendations := [] }

/-! ## Mock market-data generation (market_scout_agent.py lines 96-155)

`random.randint` / `random.uniform` / `random.choice` are embedded as
functions of an explicit stream `r : ℕ → ℕ` of pseudo-random draws; the k-th
random call made by a method reads `r k`.  Two runs of the Python code are two
different streams. -/

/-- `random.randint(lo, hi)` fed by draw `d`: a value in `[lo, hi]`. -/
def randint (lo hi : ℕ) (d : ℕ) : ℕ := lo + d % (hi - lo + 1)

/-- `random.uniform(lo, hi)` fed by draw `d`: a rational in `[lo, hi]`
(granularity 1/1000 — enough to model nondeterminism). -/
def randuniform (lo hi : ℚ) (d : ℕ) : ℚ :=
  lo + (hi - lo) * (d % 1000 : ℕ) / 1000

/-- `random.choice(xs)` fed by draw `d`. -/
def randchoice {α : Type} (xs : List α) (dflt : α) (d : ℕ) : α :=
  xs.getD (d % xs.length) dflt

/-- One entry of the list built by `_scan_job_opportunities`. -/
structure JobOpportunity where
  skill : String
  job_count : ℕ
  growth_rate : ℚ
  demand_level : String
  avg_salary : ℕ
  remote_percentage : ℕ
  deriving Repr, DecidableEq

/-- `MarketScoutAgent._scan_job_opportunities` (lines 96-114): for each of the
first five skills draws `job_count = randint(50, 300)`,
`growth_rate = uniform(-0.1, 0.4)`, `avg_salary = randint(80000, 150000)`,
`remote_percentage = randint(60, 90)`. -/
def scan_job_opportunities (skills : List String) (r : ℕ → ℕ) :
    List JobOpportunity :=
  (skills.take 5).enum.map (fun p =>
    let growth_rate := randuniform (-1/10) (4/10) (r (4 * p.1 + 1))
    { skill := p.2
      job_count := randint 50 300 (r (4 * p.1))
      growth_rate := growth_rate
      demand_level :=
        if growth_rate > 1/5 then "High"
        else if growth_rate > 0 then "Medium" else "Low"
      avg_salary := randint 80000 150000 (r (4 * p.1 + 2))
      remote_percentage := randint 60 90 (r (4 * p.1 + 3)) })

def monitored_companies : List String :=
  ["Google", "Microsoft", "OpenAI", "Anthropic", "Meta",
   "Apple", "Amazon", "Netflix", "Tesla", "Stripe"]

/-- One entry of the list built by `_scan_company_activity`
(`detected_at` timestamp not modelled). -/
structure CompanyActivity where
  company : String
  activity_type : String
  impact_score : ℚ
  hiring_likelihood : ℚ
  estimated_new_roles : ℕ
  deriving Repr, DecidableEq

/-- `MarketScoutAgent._scan_company_activity` (lines 138-155): for each of the
first five monitored companies draws
`activity_type = choice(['hiring_surge', 'new_funding', 'product_launch',
'expansion'])`, `impact_score = uniform(0.6, 0.95)`,
`hiring_likelihood = uniform(0.5, 0.9)`,
`estimated_new_roles = randint(5, 50)`. -/
def scan_company_activity (r : ℕ → ℕ) : List CompanyActivity :=
  (monitored_companies.take 5).enum.map (fun p =>
    { company := p.2
      activity_type :=
        randchoice ["hiring_surge", "new_funding", "product_launch", "expansion"]
          "hiring_surge" (r (4 * p.1))
      impact_score := randuniform (6/10) (95/100) (r (4 * p.1 + 1))
      hiring_likelihood := randuniform (1/2) (9/10) (r (4 * p.1 + 2))
      estimated_new_roles := randint 5 50 (r (4 * p.1 + 3)) })

/-! ## The /status-options endpoint (api/job_applications.py lines 244-255) -/

/-- Modelled from the spec: the `ApplicationStatus` enum that
`api/job_applications.py` imports from `models` is not defined anywhere in the
repository snapshot; the spec (§3) fixes its members as
{applied, under_review, interview, offer, rejected, withdrawn}, in that
order. -/
inductive ApplicationStatus where
  | applied
  | under_review
  | interview
  | offer
  | rejected
  | withdrawn
  deriving Repr, DecidableEq

/-- The persisted string value of each enum member. -/
def ApplicationStatus.value : ApplicationStatus → String
  | .applied => "applied"
  | .under_review => "under_review"
  | .interview => "interview"
  | .offer => "offer"
  | .rejected => "rejected"
  | .withdrawn => "withdrawn"

/-- Iteration order of `for status in ApplicationStatus` (declaration order). -/
def ApplicationStatus.all : List ApplicationStatus :=
  [.applied, .under_review, .interview, .offer, .rejected, .withdrawn]

/-- Python `str.replace('_', ' ')` on the status values. -/
def replaceUnderscores (s : String) : String :=
  ⟨s.data.map (fun c => if c = '_' then ' ' else c)⟩

/-- One character of Python `str.title()`: an alphabetic character is
uppercased when the previous character was not alphabetic, lowercased
otherwise; other characters pass through. -/
def titleChar (prevAlpha : Bool) (c : Char) : Char :=
  if c.isAlpha then (if prevAlpha then c.toLower else c.toUpper) else c

def pyTitleAux : Bool → List Char → List Char
  | _, [] => []
  | prev, c :: cs => titleChar prev c :: pyTitleAux c.isAlpha cs

/-- Python `str.title()` (ASCII, which covers all status values). -/
def pyTitle (s : String) : String := ⟨pyTitleAux false s.data⟩

/-- `get_status_options` (api/job_applications.py lines 244-255): one
`{"value": status.value, "label": status.value.replace('_', ' ').title()}`
pair per enum member, in enumeration order. -/
def status_options : List (String × String) :=
  ApplicationStatus.all.map
    (fun status => (status.value, pyTitle (replaceUnderscores status.value)))

/-! ## Record Normalizer

Modelled from the spec: the body of the deduplication service
(`services/deduplication_service.py`) is not in the repository snapshot, only
its call sites; spec §4.1 gives the contract
`normalize(raw_company, raw_title) -> NormalizedKey`:
lowercase, trim, collapse internal whitespace; strip common corporate
suffixes (Inc, LLC, Corp, Ltd) and punctuation from the company name only;
`ValidationError` when both inputs are empty after canonicalization.
Strings are `List Char`; whitespace is the space character. -/

/-- ASCII lowercasing (Python `str.lower()` on the relevant alphabet). -/
def lowerChar (c : Char) : Char :=
  if 65 ≤ c.toNat ∧ c.toNat ≤ 90 then Char.ofNat (c.toNat + 32) else c

/-- Punctuation stripped from company names. -/
def isPunctChar (c : Char) : Bool :=
  c ∈ ['.', ',', ';', ':', '!', '?', '(', ')', '&', '-', '#', '@']

/-- Split into whitespace-separated words, dropping empty words (this is
trimming plus whitespace collapsing in one step). `acc` holds the current
word reversed. -/
def wordsAux : List Char → List Char → List (List Char)
  | acc, [] => if acc = [] then [] else [acc.reverse]
  | acc, c :: cs =>
    if c = ' ' then
      if acc = [] then wordsAux [] cs else acc.reverse :: wordsAux [] cs
    else wordsAux (c :: acc) cs

def words (s : List Char) : List (List Char) := wordsAux [] s

/-- Rejoin words with single spaces: together with `words` this lowercase
trims and collapses internal whitespace. -/
def unwords : List (List Char) → List Char
  | [] => []
  | [w] => w
  | w :: ws => w ++ ' ' :: unwords ws

/-- Common corporate suffixes stripped from company names (spec §4.1). -/
def corporateSuffixes : List (List Char) :=
  ["inc".data, "llc".data, "corp".data, "ltd".data]

/-- Drop leading suffix tokens from a REVERSED token list (i.e. trailing
suffix tokens of the company name), always keeping at least one token so a
company that consists only of a suffix word does not normalize to nothing. -/
def dropSuffixTokens : List (List Char) → List (List Char)
  | [] => []
  | [t] => [t]
  | t :: ts => if t ∈ corporateSuffixes then dropSuffixTokens ts else t :: ts

def stripCorporateSuffixes (ts : List (List Char)) : List (List Char) :=
  (dropSuffixTokens ts.reverse).reverse

/-- Canonical company name: lowercase, strip punctuation, trim/collapse
whitespace, strip trailing corporate suffixes. -/
def normalizeCompany (raw : List Char) : List Char :=
  unwords (stripCorporateSuffixes
    (words ((raw.map lowerChar).filter (fun c => !isPunctChar c))))

/-- Canonical position title: lowercase, trim/collapse whitespace
(punctuation and suffixes are stripped from the company name only). -/
def normalizeTitle (raw : List Char) : List Char :=
  unwords (words (raw.map lowerChar))

inductive ValidationError where
  | emptyKey
  deriving Repr, DecidableEq

/-- The stable key space of canonicalized (company, title) pairs. -/
structure NormalizedKey where
  company : List Char
  title : List Char
  deriving Repr, DecidableEq

deriving instance DecidableEq for Except

/-- Modelled from the spec (§4.1): `normalize(raw_company, raw_title)`
canonicalizes both fields and fails with `ValidationError` when the key is
empty (both fields empty once canonicalized — the spec demands rejection of
empty input and idempotence, so emptiness is checked on the canonical
key). -/
def normalize (raw_company raw_title : List Char) :
    Except ValidationError NormalizedKey :=
  let c := normalizeCompany raw_company
  let t := normalizeTitle raw_title
  if c = [] ∧ t = [] then .error .emptyKey else .ok ⟨c, t⟩

/-! ## Email Classifier

Modelled from the spec: `services/email_categorizer.py` is absent from the
snapshot; spec §4.3 gives `classify(subject, body) -> Category`: score each
category by counting occurrences of its phrase set in the (lowercased)
subject+body, highest score wins, ties broken by the fixed priority
offer > interview > rejection > confirmation > other, and `other` when all
scores are zero.  The phrase sets follow the spec's examples. -/

inductive Category where
  | application_confirmation
  | rejection
  | interview_request
  | offer
  | other
  deriving Repr, DecidableEq

def countOccur (pat : List Char) : List Char → ℕ
  | [] => 0
  | c :: cs => (if pat.isPrefixOf (c :: cs) then 1 else 0) + countOccur pat cs

def offerPhrases : List (List Char) :=
  ["pleased to offer".data, "offer letter".data]

def interviewPhrases : List (List Char) :=
  ["schedule a call".data, "phone screen".data]

def rejectionPhrases : List (List Char) :=
  ["unfortunately".data, "not moving forward".data]

def confirmationPhrases : List (List Char) :=
  ["application received".data, "thank you for applying".data]

def phrases : Category → List (List Char)
  | .offer => offerPhrases
  | .interview_request => interviewPhrases
  | .rejection => rejectionPhrases
  | .application_confirmation => confirmationPhrases
  | .other => []

def emailText (subject body : List Char) : List Char :=
  (subject ++ ' ' :: body).map lowerChar

def score (cat : Category) (subject body : List Char) : ℕ :=
  ((phrases cat).map (fun p => countOccur p (emailText subject body))).sum

def classify (subject body : List Char) : Category :=
  let so := score .offer subject body
  let si := score .interview_request subject body
  let sr := score .rejection subject body
  let sc := score .application_confirmation subject body
  if so = 0 ∧ si = 0 ∧ sr = 0 ∧ sc = 0 then .other
  else if si ≤ so ∧ sr ≤ so ∧ sc ≤ so then .offer
  else if sr ≤ si ∧ sc ≤ si then .interview_request
  else if sc ≤ sr then .rejection
  else .application_confirmation

def priority : Category → ℕ
  | .offer => 4
  | .interview_request => 3
  | .rejection => 2
  | .application_confirmation => 1
  | .other => 0

/-! ## Fingerprint Matcher and Reconciliation Store

Modelled from the spec: the body of `services/deduplication_service.py` is
absent from the snapshot; spec §4.2 and §4.4 give the contracts.  A
fingerprint is the order-independent token set of the normalized company
and title (glossary); two records are duplicates when their company token
sets are identical and the Jaccard similarity of their title token sets
meets the configured threshold 0.6; `find_duplicate` picks the matching
record with the most recent `updated_at` and returns `None` when nothing
matches; `upsert` merges into a found duplicate (advancing status only
along valid transitions) or creates a fresh `applied` record;
`apply_email_event` maps the classifier category to a candidate transition
and applies it only when valid from the current state, a no-op otherwise;
withdrawal happens only by explicit user action, so it is never a
transition target of the automatic state machine. -/

structure Fingerprint where
  companyTokens : Finset (List Char)
  titleTokens : Finset (List Char)
  deriving DecidableEq

/-- Derive the fingerprint of a normalized key: order-independent token
sets; title tokens are compared with punctuation stripped, so
"Software Engineer, Backend" and "Backend Software Engineer" fingerprint
identically (spec §4.2). -/
def fingerprint (k : NormalizedKey) : Fingerprint :=
  ⟨(words k.company).toFinset,
   (words (k.title.filter (fun c => !isPunctChar c))).toFinset⟩

/-- Title-similarity threshold (Jaccard ≥ 0.6), a configuration constant. -/
def titleThresholdNum : ℕ := 6
def titleThresholdDen : ℕ := 10

/-- `|a ∩ b| / |a ∪ b| ≥ 6/10`, in integer arithmetic. -/
def titleSimilar (a b : Finset (List Char)) : Bool :=
  titleThresholdNum * (a ∪ b).card ≤ titleThresholdDen * (a ∩ b).card

structure ApplicationRecord where
  id : ℕ
  fingerprint : Fingerprint
  status : ApplicationStatus
  created_at : ℕ
  updated_at : ℕ
  source_emails : List ℕ
  deriving DecidableEq

structure Store where
  records : List ApplicationRecord
  nextId : ℕ
  deriving DecidableEq

def emptyStore : Store := ⟨[], 0⟩

/-- A stored record matches a query fingerprint when it is not withdrawn,
its company fingerprint is identical and its title token set is similar
enough. -/
def matchesFp (fp : Fingerprint) (r : ApplicationRecord) : Bool :=
  r.status ≠ ApplicationStatus.withdrawn ∧
    r.fingerprint.companyTokens = fp.companyTokens ∧
    titleSimilar r.fingerprint.titleTokens fp.titleTokens

/-- Tie-break of spec §4.2: among several candidates take the one with the
most recent `updated_at`. -/
def mostRecent : ApplicationRecord → List ApplicationRecord → ApplicationRecord
  | best, [] => best
  | best, r :: rs =>
    mostRecent (if best.updated_at < r.updated_at then r else best) rs

/-- `find_duplicate(fp, store) -> Optional[RecordId]` (spec §4.2). -/
def find_duplicate (fp : Fingerprint) (store : Store) : Option ℕ :=
  match store.records.filter (matchesFp fp) with
  | [] => none
  | r :: rs => some (mostRecent r rs).id

/-- The state machine of spec §4.4:
`applied → under_review → {interview, rejected} → {offer, rejected}`;
`withdrawn` is reachable by explicit user action only, so it is never a
target of an automatic transition. -/
def validTransition : ApplicationStatus → ApplicationStatus → Bool
  | .applied, .under_review => true
  | .under_review, .interview => true
  | .under_review, .rejected => true
  | .interview, .offer => true
  | .interview, .rejected => true
  | _, _ => false

/-- One `upsert` call: the (already fingerprinted) incoming record, an
optional incoming status, the email reference to append, and the current
timestamp. -/
structure UpsertOp where
  fp : Fingerprint
  incoming_status : Option ApplicationStatus
  email : ℕ
  now : ℕ

/-- Merge an incoming signal into an existing record: bump `updated_at`,
advance `status` only along valid transitions, append to `source_emails`
(spec §4.4). -/
def mergeRecord (op : UpsertOp) (r : ApplicationRecord) : ApplicationRecord :=
  { r with
    updated_at := op.now
    status :=
      match op.incoming_status with
      | some s => if validTransition r.status s then s else r.status
      | none => r.status
    source_emails := r.source_emails ++ [op.email] }

/-- `upsert(key, fingerprint, incoming_status?) -> RecordId` (spec §4.4):
merge into the duplicate found by the Fingerprint Matcher, or create a new
record in `applied` state (keys are validated upstream by `normalize`). -/
def upsert (store : Store) (op : UpsertOp) : Store × ℕ :=
  match find_duplicate op.fp store with
  | some rid =>
    ({ store with
        records := store.records.map
          (fun x => if x.id = rid then mergeRecord op x else x) }, rid)
  | none =>
    ({ records := store.records ++
        [{ id := store.nextId, fingerprint := op.fp,
           status := ApplicationStatus.applied, created_at := op.now,
           updated_at := op.now, source_emails := [op.email] }],
       nextId := store.nextId + 1 }, store.nextId)

/-- The store reached from the empty store by a sequence of upserts. -/
def applyUpserts (ops : List UpsertOp) : Store :=
  ops.foldl (fun s op => (upsert s op).1) emptyStore

/-- The core deduplication guarantee (spec §3): at most one non-withdrawn
record per distinct fingerprint. -/
def DedupInvariant (store : Store) : Prop :=
  ∀ r1 ∈ store.records, ∀ r2 ∈ store.records,
    r1.status ≠ ApplicationStatus.withdrawn →
    r2.status ≠ ApplicationStatus.withdrawn →
    r1.fingerprint = r2.fingerprint → r1.id = r2.id

inductive StoreError where
  | notFound
  deriving Repr, DecidableEq

/-- Map a classifier category to the candidate status transition
(spec §4.4: `rejection → rejected`, `interview-request → interview`, …). -/
def categoryToStatus : Category → Option ApplicationStatus
  | .application_confirmation => some .under_review
  | .rejection => some .rejected
  | .interview_request => some .interview
  | .offer => some .offer
  | .other => none

structure StatusChange where
  from_status : ApplicationStatus
  to_status : ApplicationStatus
  deriving Repr, DecidableEq

/-- Overwrite the status of the record(s) with the given id. -/
def setStatus (record_id : ℕ) (target : ApplicationStatus)
    (records : List ApplicationRecord) : List ApplicationRecord :=
  records.map (fun x =>
    if x.id = record_id then { x with status := target } else x)

/-- `apply_email_event(record_id, category) -> StatusChange?` (spec §4.4):
apply the candidate transition only if valid from the current state, else
no-op (logged, not an error); unknown ids surface `NotFound` (spec §7). -/
def apply_email_event (store : Store) (record_id : ℕ) (cat : Category) :
    Except StoreError (Store × Option StatusChange) :=
  match store.records.find? (fun r => r.id = record_id) with
  | none => .error .notFound
  | some r =>
    match categoryToStatus cat with
    | none => .ok (store, none)
    | some target =>
      if validTransition r.status target then
        .ok ({ store with records := setStatus record_id target store.records },
          some ⟨r.status, target⟩)
      else .ok (store, none)

/-- A one-record store holding an `offer`-status record, for concrete
checks. -/
def demoFingerprint : Fingerprint := ⟨{"acme".data}, {"engineer".data}⟩

def demoRecordOffer : ApplicationRecord :=
  ⟨0, demoFingerprint, ApplicationStatus.offer, 0, 0, []⟩

def demoStoreOffer : Store := ⟨[demoRecordOffer], 1⟩

lemma emerging_not_highDemand : ∀ s ∈ emergingSkills, s ∉ highDemandSkills := by
  decide

lemma declining_not_highDemand : ∀ s ∈ decliningSkills, s ∉ highDemandSkills := by
  decide

lemma declining_not_emerging : ∀ s ∈ decliningSkills, s ∉ emergingSkills := by
  decide

lemma stable_not_highDemand : ∀ s ∈ stableCoreSkills, s ∉ highDemandSkills := by
  decide

lemma stable_not_emerging : ∀ s ∈ stableCoreSkills, s ∉ emergingSkills := by
  decide

lemma stable_not_declining : ∀ s ∈ stableCoreSkills, s ∉ decliningSkills := by
  decide

lemma countP_emerging (skills : List String) :
    (skills.filter (fun s => s ∉ highDemandSkills ∧ s ∈ emergingSkills)).length =
      skills.countP (fun s => s ∈ emergingSkills) := by
  rw [← List.countP_eq_length_filter]
  apply List.countP_congr
  intro a _
  by_cases h : a ∈ emergingSkills
  · simp [h, emerging_not_highDemand a h]
  · simp [h]

lemma countP_declining (skills : List String) :
    (skills.filter
        (fun s => s ∉ highDemandSkills ∧ s ∉ emergingSkills ∧ s ∈ decliningSkills)).length =
      skills.countP (fun s => s ∈ decliningSkills) := by
  rw [← List.countP_eq_length_filter]
  apply List.countP_congr
  intro a _
  by_cases h : a ∈ decliningSkills
  · simp [h, declining_not_highDemand a h, declining_not_emerging a h]
  · simp [h]

lemma countP_stable (skills : List String) :
    (skills.filter
        (fun s => s ∉ highDemandSkills ∧ s ∉ emergingSkills ∧ s ∉ decliningSkills ∧
          s ∈ stableCoreSkills)).length =
      skills.countP (fun s => s ∈ stableCoreSkills) := by
  rw [← List.countP_eq_length_filter]
  apply List.countP_congr
  intro a _
  by_cases h : a ∈ stableCoreSkills
  · simp [h, stable_not_highDemand a h, stable_not_emerging a h, stable_not_declining a h]
  · simp [h]

/-- C10: for every list of current skills, `_analyze_skill_positioning` returns
`positioning_score = 10·#(skills in high_demand) + 8·#(in emerging) +
5·#(in stable_core) − 3·#(in declining)` (each skill counted in at most one
category, matched case-sensitively), and `market_readiness` is `"High"` exactly
when the score exceeds 30, `"Medium"` exactly when it is greater than 15 and at
most 30, and `"Developing"` otherwise. -/
theorem analyze_skill_positioning_spec (skills : List String) :
    (analyze_skill_positioning skills).positioning_score =
      10 * (skills.countP (fun s => s ∈ highDemandSkills) : Int) +
        8 * (skills.countP (fun s => s ∈ emergingSkills) : Int) +
        5 * (skills.countP (fun s => s ∈ stableCoreSkills) : Int) -
        3 * (skills.countP (fun s => s ∈ decliningSkills) : Int) ∧
    ((analyze_skill_positioning skills).market_readiness = "High" ↔
      30 < (analyze_skill_positioning skills).positioning_score) ∧
    ((analyze_skill_positioning skills).market_readiness = "Medium" ↔
      15 < (analyze_skill_positioning skills).positioning_score ∧
        (analyze_skill_positioning skills).positioning_score ≤ 30) ∧
    ((analyze_skill_positioning skills).market_readiness = "Developing" ↔
      (analyze_skill_positioning skills).positioning_score ≤ 15) := by
  have hsc : (analyze_skill_positioning skills).positioning_score =
      10 * (skills.countP (fun s => s ∈ highDemandSkills) : Int) +
        8 * (skills.countP (fun s => s ∈ emergingSkills) : Int) +
        5 * (skills.countP (fun s => s ∈ stableCoreSkills) : Int) -
        3 * (skills.countP (fun s => s ∈ decliningSkills) : Int) := by
    simp only [analyze_skill_positioning, categorizeSkills]
    rw [← countP_emerging, ← countP_stable, ← countP_declining,
      List.countP_eq_length_filter]
  refine ⟨hsc, ?_, ?_, ?_⟩ <;>
    simp only [analyze_skill_positioning, categorizeSkills] at hsc ⊢ <;>
    split_ifs with h1 h2 <;> simp_all <;> omega

/-- C8: for every task input, each agent's `execute_task` never propagates an
exception: if any internal step raises `e`, it returns an `AgentResult` with
`success = False`, `confidence_score = 0.0` and `e` among `errors`; on success
it returns `success = True` with a fixed non-zero confidence score
(0.85 / 0.90 / 0.85). -/
theorem execute_task_never_propagates (D : Type) (task_type : Option String)
    (daily_scan company_intel skill_demand strategy discovery : Except String D)
    (recM recS recO : D → List String) :
    (∀ e, marketScoutBody task_type daily_scan company_intel skill_demand =
        .error e →
      (MarketScoutAgent.execute_task task_type daily_scan company_intel
          skill_demand recM).success = false ∧
      (MarketScoutAgent.execute_task task_type daily_scan company_intel
          skill_demand recM).confidence_score = 0 ∧
      e ∈ (MarketScoutAgent.execute_task task_type daily_scan company_intel
          skill_demand recM).errors) ∧
    (∀ d, marketScoutBody task_type daily_scan company_intel skill_demand =
        .ok d →
      (MarketScoutAgent.execute_task task_type daily_scan company_intel
          skill_demand recM).success = true ∧
      (MarketScoutAgent.execute_task task_type daily_scan company_intel
          skill_demand recM).confidence_score = 85/100 ∧ (85/100 : ℚ) ≠ 0) ∧
    (∀ e, strategy = .error e →
      (SkillStrategistAgent.execute_task strategy recS).success = false ∧
      (SkillStrategistAgent.execute_task strategy recS).confidence_score = 0 ∧
      e ∈ (SkillStrategistAgent.execute_task strategy recS).errors) ∧
    (∀ d, strategy = .ok d →
      (SkillStrategistAgent.execute_task strategy recS).success = true ∧
      (SkillStrategistAgent.execute_task strategy recS).confidence_score =
        90/100 ∧ (90/100 : ℚ) ≠ 0) ∧
    (∀ e, discovery = .error e →
      (OpportunityHunterAgent.execute_task discovery recO).success = false ∧
      (OpportunityHunterAgent.execute_task discovery recO).confidence_score =
        0 ∧
      e ∈ (OpportunityHunterAgent.execute_task discovery recO).errors) ∧
    (∀ d, discovery = .ok d →
      (OpportunityHunterAgent.execute_task discovery recO).success = true ∧
      (OpportunityHunterAgent.execute_task discovery recO).confidence_score =
        85/100 ∧ (85/100 : ℚ) ≠ 0) := by
  refine ⟨?_, ?_, ?_, ?_, ?_, ?_⟩ <;> intro x hx <;>
    simp [MarketScoutAgent.execute_task, SkillStrategistAgent.execute_task,
      OpportunityHunterAgent.execute_task, hx]

/-- Witness for C8 at concrete inputs: a raising daily scan fails with the
message recorded, a successful strategy analysis reports confidence 0.90, a
raising discovery fails. -/
theorem execute_task_never_propagates_witness :
    (MarketScoutAgent.execute_task (some "daily_market_scan")
        (Except.error "boom") (Except.ok (0 : ℕ)) (Except.ok 0)
        (fun _ => [])).success = false ∧
    "boom" ∈ (MarketScoutAgent.execute_task (some "daily_market_scan")
        (Except.error "boom") (Except.ok (0 : ℕ)) (Except.ok 0)
        (fun _ => [])).errors ∧
    (SkillStrategistAgent.execute_task (Except.ok (0 : ℕ))
        (fun _ => [])).confidence_score = 90/100 ∧
    (OpportunityHunterAgent.execute_task (D := ℕ) (Except.error "oops")
        (fun _ => [])).success = false := by
  have h := execute_task_never_propagates ℕ (some "daily_market_scan")
    (.error "boom") (.ok 0) (.ok 0) (.ok 0) (.error "oops")
    (fun _ => []) (fun _ => []) (fun _ => [])
  exact ⟨(h.1 "boom" (by simp [marketScoutBody])).1,
    (h.1 "boom" (by simp [marketScoutBody])).2.2,
    (h.2.2.2.1 0 rfl).2.1,
    (h.2.2.2.2.1 "oops" rfl).1⟩

/-- C9: market-data generation is not a deterministic function of the user's
skills: for any (non-empty) skill list two runs of `_scan_job_opportunities`
can differ, and two runs of `_scan_company_activity` can differ, because every
value is drawn from `random.randint` / `random.uniform` / `random.choice`. -/
theorem market_scan_nondeterministic (skills : List String)
    (h : skills ≠ []) :
    (∃ r1 r2 : ℕ → ℕ,
      scan_job_opportunities skills r1 ≠ scan_job_opportunities skills r2) ∧
    (∃ r1 r2 : ℕ → ℕ, scan_company_activity r1 ≠ scan_company_activity r2) := by
  constructor
  · refine ⟨fun _ => 0, fun _ => 1, fun heq => ?_⟩
    match skills, h with
    | s :: rest, _ =>
      have h2 := congrArg
        (fun l => (List.head? l).map JobOpportunity.job_count) heq
      simp [scan_job_opportunities, randint] at h2
  · refine ⟨fun _ => 0, fun _ => 1, fun heq => ?_⟩
    have h2 := congrArg
      (fun l => (List.head? l).map CompanyActivity.activity_type) heq
    simp [scan_company_activity, randchoice, monitored_companies] at h2

/-- Witness for C9 at the concrete skill list `["Python"]`. -/
theorem market_scan_nondeterministic_witness :
    (∃ r1 r2 : ℕ → ℕ,
      scan_job_opportunities ["Python"] r1 ≠ scan_job_opportunities ["Python"] r2) ∧
    (∃ r1 r2 : ℕ → ℕ, scan_company_activity r1 ≠ scan_company_activity r2) :=
  market_scan_nondeterministic ["Python"] (by decide)

/-- C7: the status-options endpoint returns, for every `ApplicationStatus`
member in enumeration order, the pair of its string value and that value with
underscores replaced by spaces and then title-cased
(`under_review ↦ Under Review`). -/
theorem status_options_spec :
    status_options =
      [("applied", "Applied"), ("under_review", "Under Review"),
       ("interview", "Interview"), ("offer", "Offer"),
       ("rejected", "Rejected"), ("withdrawn", "Withdrawn")] ∧
    status_options.length = ApplicationStatus.all.length ∧
    (∀ p ∈ status_options, p.2 = pyTitle (replaceUnderscores p.1)) := by
  refine ⟨by decide, by decide, by decide⟩

lemma toNat_ofNat_small (n : ℕ) (h : n < 128) : (Char.ofNat n).toNat = n := by
  have hv : n.isValidChar := Or.inl (by omega)
  simp [Char.ofNat, hv, Char.ofNatAux, Char.toNat, UInt32.toNat, BitVec.toNat_ofNatLt]

lemma lowerChar_idem (c : Char) : lowerChar (lowerChar c) = lowerChar c := by
  unfold lowerChar
  split_ifs with h1 h2
  · have := toNat_ofNat_small (c.toNat + 32) (by omega)
    omega
  · rfl
  · rfl

lemma mem_wordsAux (s : List Char) : ∀ (acc : List Char) (w : List Char),
    (∀ c ∈ acc, c ≠ ' ') → w ∈ wordsAux acc s →
    w ≠ [] ∧ ∀ c ∈ w, c ≠ ' ' := by
  induction s with
  | nil =>
    intro acc w hacc hw
    by_cases h : acc = []
    · simp [wordsAux, h] at hw
    · simp [wordsAux, h] at hw
      subst hw
      constructor
      · simpa using h
      · intro c hc
        exact hacc c (by simpa using hc)
  | cons c cs ih =>
    intro acc w hacc hw
    by_cases hsp : c = ' '
    · by_cases h : acc = []
      · simp [wordsAux, hsp, h] at hw
        exact ih [] w (by simp) hw
      · simp [wordsAux, hsp, h] at hw
        rcases hw with hw | hw
        · subst hw
          refine ⟨by simpa using h, ?_⟩
          intro x hx
          exact hacc x (by simpa using hx)
        · exact ih [] w (by simp) hw
    · simp [wordsAux, hsp] at hw
      refine ih (c :: acc) w ?_ hw
      intro x hx
      rcases List.mem_cons.mp hx with h | h
      · subst h; exact hsp
      · exact hacc x h

lemma mem_words (s w : List Char) (hw : w ∈ words s) :
    w ≠ [] ∧ ∀ c ∈ w, c ≠ ' ' :=
  mem_wordsAux s [] w (by simp) hw

lemma wordsAux_append (w : List Char) (hw : ∀ c ∈ w, c ≠ ' ') :
    ∀ (acc rest : List Char),
    wordsAux acc (w ++ rest) = wordsAux (w.reverse ++ acc) rest := by
  induction w with
  | nil => intro acc rest; simp
  | cons c cs ih =>
    intro acc rest
    have hc : c ≠ ' ' := hw c (by simp)
    have hcs : ∀ x ∈ cs, x ≠ ' ' := fun x hx => hw x (by simp [hx])
    simp only [List.cons_append, wordsAux, if_neg hc, List.append_eq]
    rw [ih hcs (c :: acc) rest]
    simp

lemma words_unwords (ws : List (List Char))
    (h : ∀ w ∈ ws, w ≠ [] ∧ ∀ c ∈ w, c ≠ ' ') : words (unwords ws) = ws := by
  induction ws with
  | nil => rfl
  | cons w ws ih =>
    obtain ⟨hne, hnsp⟩ := h w (by simp)
    cases ws with
    | nil =>
      show wordsAux [] (unwords [w]) = [w]
      have : unwords [w] = w ++ [] := by simp [unwords]
      rw [this, wordsAux_append w hnsp [] []]
      simp [wordsAux, hne]
    | cons w2 ws2 =>
      show wordsAux [] (unwords (w :: w2 :: ws2)) = w :: w2 :: ws2
      have : unwords (w :: w2 :: ws2) = w ++ ' ' :: unwords (w2 :: ws2) := rfl
      rw [this, wordsAux_append w hnsp [] (' ' :: unwords (w2 :: ws2))]
      have h1 : wordsAux (w.reverse ++ []) (' ' :: unwords (w2 :: ws2)) =
          (w.reverse ++ []).reverse :: wordsAux [] (unwords (w2 :: ws2)) := by
        simp only [wordsAux, List.append_nil]
        rw [if_pos trivial, if_neg (by simpa using hne)]
      rw [h1]
      have ihh := ih (fun x hx => h x (by simp [hx]))
      simp only [words] at ihh
      simp [ihh]

lemma mem_of_mem_wordsAux (s : List Char) : ∀ (acc w : List Char) (c : Char),
    w ∈ wordsAux acc s → c ∈ w → c ∈ s ∨ c ∈ acc := by
  induction s with
  | nil =>
    intro acc w c hw hc
    by_cases h : acc = [] <;> simp [wordsAux, h] at hw
    subst hw
    right
    simpa using hc
  | cons x xs ih =>
    intro acc w c hw hc
    by_cases hsp : x = ' '
    · by_cases h : acc = []
      · simp [wordsAux, hsp, h] at hw
        rcases ih [] w c hw hc with h2 | h2
        · exact Or.inl (by simp [h2])
        · simp at h2
      · simp [wordsAux, hsp, h] at hw
        rcases hw with hw | hw
        · subst hw
          right
          simpa using hc
        · rcases ih [] w c hw hc with h2 | h2
          · exact Or.inl (by simp [h2])
          · simp at h2
    · simp [wordsAux, hsp] at hw
      rcases ih (x :: acc) w c hw hc with h2 | h2
      · exact Or.inl (by simp [h2])
      · rcases List.mem_cons.mp h2 with h3 | h3
        · exact Or.inl (by simp [h3])
        · exact Or.inr h3

lemma mem_of_mem_words (s w : List Char) (c : Char)
    (hw : w ∈ words s) (hc : c ∈ w) : c ∈ s := by
  rcases mem_of_mem_wordsAux s [] w c hw hc with h | h
  · exact h
  · simp at h

lemma mem_unwords (ws : List (List Char)) (c : Char) (hc : c ∈ unwords ws) :
    c = ' ' ∨ ∃ w ∈ ws, c ∈ w := by
  induction ws with
  | nil => simp [unwords] at hc
  | cons w ws ih =>
    cases ws with
    | nil =>
      right
      exact ⟨w, by simp, by simpa [unwords] using hc⟩
    | cons w2 ws2 =>
      have : c ∈ w ++ ' ' :: unwords (w2 :: ws2) := hc
      rcases List.mem_append.mp this with h | h
      · exact Or.inr ⟨w, by simp, h⟩
      · rcases List.mem_cons.mp h with h2 | h2
        · exact Or.inl h2
        · rcases ih h2 with h3 | h3
          · exact Or.inl h3
          · obtain ⟨u, hu, hcu⟩ := h3
            exact Or.inr ⟨u, by simp [hu], hcu⟩

lemma dropSuffixTokens_idem (ts : List (List Char)) :
    dropSuffixTokens (dropSuffixTokens ts) = dropSuffixTokens ts := by
  induction ts with
  | nil => rfl
  | cons t ts ih =>
    cases ts with
    | nil => rfl
    | cons u us =>
      by_cases h : t ∈ corporateSuffixes
      · rw [show dropSuffixTokens (t :: u :: us) = dropSuffixTokens (u :: us) by
          simp [dropSuffixTokens, h]]
        exact ih
      · rw [show dropSuffixTokens (t :: u :: us) = t :: u :: us by
          simp [dropSuffixTokens, h]]
        simp [dropSuffixTokens, h]

lemma mem_dropSuffixTokens (ts : List (List Char)) (w : List Char)
    (hw : w ∈ dropSuffixTokens ts) : w ∈ ts := by
  induction ts with
  | nil => simp [dropSuffixTokens] at hw
  | cons t ts ih =>
    cases ts with
    | nil => simpa [dropSuffixTokens] using hw
    | cons u us =>
      by_cases h : t ∈ corporateSuffixes
      · rw [show dropSuffixTokens (t :: u :: us) = dropSuffixTokens (u :: us) by
          simp [dropSuffixTokens, h]] at hw
        exact List.mem_cons_of_mem t (ih hw)
      · rw [show dropSuffixTokens (t :: u :: us) = t :: u :: us by
          simp [dropSuffixTokens, h]] at hw
        exact hw

lemma stripCorporateSuffixes_idem (ts : List (List Char)) :
    stripCorporateSuffixes (stripCorporateSuffixes ts) =
      stripCorporateSuffixes ts := by
  simp [stripCorporateSuffixes, dropSuffixTokens_idem]

lemma mem_stripCorporateSuffixes (ts : List (List Char)) (w : List Char)
    (hw : w ∈ stripCorporateSuffixes ts) : w ∈ ts := by
  simp only [stripCorporateSuffixes, List.mem_reverse] at hw ⊢
  have := mem_dropSuffixTokens ts.reverse w hw
  simpa using this

lemma normalizeCompany_chars (raw : List Char) (c : Char)
    (hc : c ∈ normalizeCompany raw) :
    lowerChar c = c ∧ isPunctChar c = false := by
  rcases mem_unwords _ c hc with h | ⟨w, hw, hcw⟩
  · subst h; exact ⟨by decide, by decide⟩
  · have hw2 := mem_stripCorporateSuffixes _ _ hw
    have hcs := mem_of_mem_words _ _ _ hw2 hcw
    rw [List.mem_filter] at hcs
    obtain ⟨hmem, hp⟩ := hcs
    obtain ⟨c0, _, hc0⟩ := List.mem_map.mp hmem
    constructor
    · rw [← hc0]; exact lowerChar_idem c0
    · simpa using hp

lemma normalizeTitle_chars (raw : List Char) (c : Char)
    (hc : c ∈ normalizeTitle raw) : lowerChar c = c := by
  rcases mem_unwords _ c hc with h | ⟨w, hw, hcw⟩
  · subst h; decide
  · have hcs := mem_of_mem_words _ _ _ hw hcw
    obtain ⟨c0, _, hc0⟩ := List.mem_map.mp hcs
    rw [← hc0]; exact lowerChar_idem c0

lemma map_lower_fix (s : List Char) (h : ∀ c ∈ s, lowerChar c = c) :
    s.map lowerChar = s := by
  conv_rhs => rw [← List.map_id s]
  exact List.map_congr_left h

lemma normalizeCompany_idem (raw : List Char) :
    normalizeCompany (normalizeCompany raw) = normalizeCompany raw := by
  have hmap : (normalizeCompany raw).map lowerChar = normalizeCompany raw :=
    map_lower_fix _ (fun c hc => (normalizeCompany_chars raw c hc).1)
  have hfilter : ((normalizeCompany raw).map lowerChar).filter
      (fun c => !isPunctChar c) = normalizeCompany raw := by
    rw [hmap]
    apply List.filter_eq_self.mpr
    intro c hc
    simp [(normalizeCompany_chars raw c hc).2]
  have htokens : ∀ w ∈ stripCorporateSuffixes
      (words ((raw.map lowerChar).filter (fun c => !isPunctChar c))),
      w ≠ [] ∧ ∀ c ∈ w, c ≠ ' ' := by
    intro w hw
    exact mem_words _ _ (mem_stripCorporateSuffixes _ _ hw)
  show unwords (stripCorporateSuffixes
    (words (((normalizeCompany raw).map lowerChar).filter
      (fun c => !isPunctChar c)))) = normalizeCompany raw
  rw [hfilter]
  show unwords (stripCorporateSuffixes (words (normalizeCompany raw))) = _
  have : words (normalizeCompany raw) = stripCorporateSuffixes
      (words ((raw.map lowerChar).filter (fun c => !isPunctChar c))) :=
    words_unwords _ htokens
  rw [this, stripCorporateSuffixes_idem]
  rfl

lemma normalizeTitle_idem (raw : List Char) :
    normalizeTitle (normalizeTitle raw) = normalizeTitle raw := by
  have hmap : (normalizeTitle raw).map lowerChar = normalizeTitle raw :=
    map_lower_fix _ (fun c hc => normalizeTitle_chars raw c hc)
  show unwords (words ((normalizeTitle raw).map lowerChar)) = normalizeTitle raw
  rw [hmap]
  show unwords (words (normalizeTitle raw)) = _
  have : words (normalizeTitle raw) = words (raw.map lowerChar) :=
    words_unwords _ (fun w hw => mem_words _ _ hw)
  rw [this]
  rfl

/-- C4: `normalize` is deterministic and side-effect free (it is a pure Lean
function of its arguments) and idempotent: when `normalize` succeeds on
`(company, title)` producing key `k`, running it again on `k`'s own fields
succeeds and returns `k` unchanged. -/
theorem normalize_idem (raw_company raw_title : List Char) (k : NormalizedKey)
    (h : normalize raw_company raw_title = .ok k) :
    normalize k.company k.title = .ok k := by
  unfold normalize at h
  by_cases hcond : normalizeCompany raw_company = [] ∧
      normalizeTitle raw_title = []
  · simp [hcond] at h
  · simp only [if_neg hcond] at h
    obtain rfl := Except.ok.inj h
    unfold normalize
    simp only [normalizeCompany_idem raw_company, normalizeTitle_idem raw_title]
    rw [if_neg hcond]

/-- Witness for C4: normalizing "  Acme,  Inc. " / "Senior   Backend Engineer"
succeeds, and renormalizing its output is the identity. -/
theorem normalize_idem_witness :
    normalize "  Acme,  Inc. ".data "Senior   Backend Engineer".data =
      .ok ⟨"acme".data, "senior backend engineer".data⟩ ∧
    normalize "acme".data "senior backend engineer".data =
      .ok ⟨"acme".data, "senior backend engineer".data⟩ :=
  ⟨by decide,
   normalize_idem "  Acme,  Inc. ".data "Senior   Backend Engineer".data
     ⟨"acme".data, "senior backend engineer".data⟩ (by decide)⟩

/-- C2: `classify` is total — every `(subject, body)` pair yields exactly one
of the five fixed categories and never an exception (it is a total Lean
function into `Category`) — and when every category's phrase-occurrence score
is zero it returns `other`. -/
theorem classify_total (subject body : List Char) :
    (classify subject body = .application_confirmation ∨
      classify subject body = .rejection ∨
      classify subject body = .interview_request ∨
      classify subject body = .offer ∨
      classify subject body = .other) ∧
    ((∀ c, score c subject body = 0) → classify subject body = .other) := by
  constructor
  · cases h : classify subject body <;> simp
  · intro h
    unfold classify
    simp [h Category.offer, h Category.interview_request, h Category.rejection,
      h Category.application_confirmation]

/-- C6: the category whose phrase set scores highest wins, ties broken by the
fixed priority order offer > interview > rejection > confirmation > other
(outside the all-zero case, which C2 sends to `other`); in particular the
spec's rejection scenario classifies as `rejection`. -/
theorem classify_highest_priority (subject body : List Char) :
    (∀ c, score c subject body ≤ score (classify subject body) subject body) ∧
    (¬ (score Category.offer subject body = 0 ∧
        score Category.interview_request subject body = 0 ∧
        score Category.rejection subject body = 0 ∧
        score Category.application_confirmation subject body = 0) →
      ∀ c, score c subject body = score (classify subject body) subject body →
        c ≠ classify subject body →
        priority c < priority (classify subject body)) ∧
    classify "Update on your application".data
      "Unfortunately, we have decided not to move forward.".data =
      .rejection := by
  have hother : score Category.other subject body = 0 := rfl
  have hcl : classify subject body =
      (if score Category.offer subject body = 0 ∧
          score Category.interview_request subject body = 0 ∧
          score Category.rejection subject body = 0 ∧
          score Category.application_confirmation subject body = 0 then
        Category.other
      else if score Category.interview_request subject body ≤
            score Category.offer subject body ∧
          score Category.rejection subject body ≤
            score Category.offer subject body ∧
          score Category.application_confirmation subject body ≤
            score Category.offer subject body then Category.offer
      else if score Category.rejection subject body ≤
            score Category.interview_request subject body ∧
          score Category.application_confirmation subject body ≤
            score Category.interview_request subject body then
        Category.interview_request
      else if score Category.application_confirmation subject body ≤
          score Category.rejection subject body then Category.rejection
      else Category.application_confirmation) := rfl
  refine ⟨?_, ?_, by decide⟩
  · intro c
    rw [hcl]
    split_ifs with h1 h2 h3 <;> cases c <;>
      simp_all [hother] <;> omega
  · intro hnz c hsc hne
    rw [hcl] at hsc hne ⊢
    split_ifs at hsc hne ⊢ with h1 h2 h3 <;> cases c <;>
      simp_all [priority, hother] <;> omega

/-- Witness for C2 at the empty email: all scores are zero and the
classification is `other`. -/
theorem classify_total_witness : classify "".data "".data = Category.other :=
  (classify_total "".data "".data).2 (fun c => by cases c <;> decide)

/-- Witness for C6: on an email mentioning both an offer phrase and an
interview phrase the scores tie at 1 and the priority order makes `offer`
win over `interview_request`. -/
theorem classify_highest_priority_witness :
    priority Category.interview_request <
      priority (classify "pleased to offer you".data "schedule a call".data) :=
  (classify_highest_priority "pleased to offer you".data
      "schedule a call".data).2.1 (by decide) Category.interview_request
    (by decide) (by decide)

lemma mostRecent_mem (rs : List ApplicationRecord) :
    ∀ best, mostRecent best rs = best ∨ mostRecent best rs ∈ rs := by
  induction rs with
  | nil => intro best; exact Or.inl rfl
  | cons r rs ih =>
    intro best
    rcases ih (if best.updated_at < r.updated_at then r else best) with h | h
    · rw [show mostRecent best (r :: rs) =
        mostRecent (if best.updated_at < r.updated_at then r else best) rs from rfl, h]
      split_ifs with hlt
      · exact Or.inr (by simp)
      · exact Or.inl rfl
    · exact Or.inr (by simp [mostRecent, h])

lemma titleSimilar_self (a : Finset (List Char)) : titleSimilar a a = true := by
  simp [titleSimilar, titleThresholdNum, titleThresholdDen]
  omega

/-- C5: `find_duplicate` returns `None` rather than failing when nothing
matches, and any record id it returns identifies a stored record whose
company fingerprint is identical to the query's and whose title token-set
similarity meets the configured threshold — so it never matches two records
whose company fingerprints differ. -/
theorem find_duplicate_spec (fp : Fingerprint) (store : Store) :
    (store.records.filter (matchesFp fp) = [] → find_duplicate fp store = none) ∧
    (∀ rid, find_duplicate fp store = some rid →
      ∃ r ∈ store.records, r.id = rid ∧
        r.status ≠ ApplicationStatus.withdrawn ∧
        r.fingerprint.companyTokens = fp.companyTokens ∧
        titleSimilar r.fingerprint.titleTokens fp.titleTokens = true) := by
  constructor
  · intro h
    unfold find_duplicate
    rw [h]
  · intro rid hrid
    unfold find_duplicate at hrid
    rcases hflt : store.records.filter (matchesFp fp) with _ | ⟨r, rs⟩
    · rw [hflt] at hrid; exact absurd hrid (by simp)
    · rw [hflt] at hrid
      have hbest : mostRecent r rs ∈ r :: rs := by
        rcases mostRecent_mem rs r with h | h
        · simp [h]
        · simp [h]
      have hmem : mostRecent r rs ∈ store.records.filter (matchesFp fp) := by
        rw [hflt]; exact hbest
      rw [List.mem_filter] at hmem
      obtain ⟨hmem, hmatch⟩ := hmem
      simp only [matchesFp, Bool.and_eq_true, decide_eq_true_eq] at hmatch
      refine ⟨mostRecent r rs, hmem, ?_, hmatch.1, hmatch.2.1, hmatch.2.2⟩
      simpa using hrid

lemma validTransition_target_ne_withdrawn (s t : ApplicationStatus)
    (h : validTransition s t = true) : t ≠ ApplicationStatus.withdrawn := by
  cases s <;> cases t <;> simp [validTransition] at h ⊢

lemma validTransition_from_withdrawn (t : ApplicationStatus) :
    validTransition ApplicationStatus.withdrawn t = false := by
  cases t <;> rfl

lemma mergeRecord_id (op : UpsertOp) (r : ApplicationRecord) :
    (mergeRecord op r).id = r.id := rfl

lemma mergeRecord_fingerprint (op : UpsertOp) (r : ApplicationRecord) :
    (mergeRecord op r).fingerprint = r.fingerprint := rfl

lemma mergeRecord_withdrawn_iff (op : UpsertOp) (r : ApplicationRecord) :
    (mergeRecord op r).status = ApplicationStatus.withdrawn ↔
      r.status = ApplicationStatus.withdrawn := by
  unfold mergeRecord
  cases hin : op.incoming_status with
  | none => simp
  | some s =>
    simp only
    by_cases hv : validTransition r.status s = true
    · rw [if_pos hv]
      constructor
      · intro hs
        subst hs
        exact absurd rfl (validTransition_target_ne_withdrawn r.status _ hv)
      · intro hr
        rw [hr] at hv
        rw [validTransition_from_withdrawn] at hv
        exact absurd hv (by simp)
    · rw [if_neg hv]

lemma find_duplicate_none (fp : Fingerprint) (store : Store)
    (h : find_duplicate fp store = none) :
    ∀ r ∈ store.records, matchesFp fp r = false := by
  intro r hr
  unfold find_duplicate at h
  rcases hflt : store.records.filter (matchesFp fp) with _ | ⟨x, xs⟩
  · by_contra hb
    have : r ∈ store.records.filter (matchesFp fp) :=
      List.mem_filter.mpr ⟨hr, by simpa using hb⟩
    rw [hflt] at this
    simp at this
  · rw [hflt] at h
    simp at h

lemma upsert_preserves_invariant (store : Store) (op : UpsertOp)
    (hinv : DedupInvariant store) : DedupInvariant (upsert store op).1 := by
  unfold upsert
  rcases hfd : find_duplicate op.fp store with _ | rid
  · -- create: new record appended
    intro r1 h1 r2 h2 hw1 hw2 hfp
    simp only [List.mem_append, List.mem_singleton] at h1 h2
    have hnomatch := find_duplicate_none op.fp store hfd
    rcases h1 with h1 | h1 <;> rcases h2 with h2 | h2
    · exact hinv r1 h1 r2 h2 hw1 hw2 hfp
    · -- r2 is the new record, r1 an old non-withdrawn one with equal fp
      exfalso
      subst h2
      simp only at hfp hw1
      have := hnomatch r1 h1
      rw [matchesFp] at this
      simp only [hfp, Bool.and_eq_true, decide_eq_true_eq] at this
      simp [hw1, titleSimilar_self] at this
    · exfalso
      subst h1
      simp only at hfp hw2
      have := hnomatch r2 h2
      rw [matchesFp] at this
      simp only [← hfp, Bool.and_eq_true, decide_eq_true_eq] at this
      simp [hw2, titleSimilar_self] at this
    · subst h1; subst h2; rfl
  · -- merge: statuses/ids/fingerprints preserved in the relevant sense
    intro r1 h1 r2 h2 hw1 hw2 hfp
    simp only [List.mem_map] at h1 h2
    obtain ⟨x1, hx1, hr1⟩ := h1
    obtain ⟨x2, hx2, hr2⟩ := h2
    have hid1 : r1.id = x1.id := by
      rw [← hr1]; split_ifs <;> simp [mergeRecord_id]
    have hid2 : r2.id = x2.id := by
      rw [← hr2]; split_ifs <;> simp [mergeRecord_id]
    have hfp1 : r1.fingerprint = x1.fingerprint := by
      rw [← hr1]; split_ifs <;> simp [mergeRecord_fingerprint]
    have hfp2 : r2.fingerprint = x2.fingerprint := by
      rw [← hr2]; split_ifs <;> simp [mergeRecord_fingerprint]
    have hw1' : x1.status ≠ ApplicationStatus.withdrawn := by
      intro hx
      apply hw1
      rw [← hr1]
      split_ifs
      · exact (mergeRecord_withdrawn_iff op x1).mpr hx
      · exact hx
    have hw2' : x2.status ≠ ApplicationStatus.withdrawn := by
      intro hx
      apply hw2
      rw [← hr2]
      split_ifs
      · exact (mergeRecord_withdrawn_iff op x2).mpr hx
      · exact hx
    rw [hid1, hid2]
    exact hinv x1 hx1 x2 hx2 hw1' hw2' (by rw [← hfp1, ← hfp2, hfp])

/-- C1: after every sequence of `upsert` operations applied to the
Reconciliation Store, the resulting state contains at most one non-withdrawn
`ApplicationRecord` per distinct fingerprint. -/
theorem upsert_dedup_invariant (ops : List UpsertOp) :
    DedupInvariant (applyUpserts ops) := by
  have hstep : ∀ (s : Store), DedupInvariant s → ∀ (l : List UpsertOp),
      DedupInvariant (l.foldl (fun s op => (upsert s op).1) s) := by
    intro s hs l
    induction l generalizing s with
    | nil => exact hs
    | cons op l ih =>
      exact ih _ (upsert_preserves_invariant s op hs)
  exact hstep emptyStore (by intro r hr; simp [emptyStore] at hr) ops

lemma terminal_no_valid (s t : ApplicationStatus)
    (h : s = ApplicationStatus.offer ∨ s = ApplicationStatus.rejected ∨
      s = ApplicationStatus.withdrawn) : validTransition s t = false := by
  rcases h with h | h | h <;> subst h <;> cases t <;> rfl

/-- C3: `apply_email_event` on a record in a terminal status (`offer`,
`rejected` or `withdrawn`) leaves the store unchanged and reports no status
change for every classifier category — the invalid transition is a no-op
`.ok`, not an error — and no record ever becomes `withdrawn` through
`apply_email_event`: a record is withdrawn afterwards only if it already
was (withdrawal is an explicit user action, not automatic classification).
In particular an `offer` record receiving an email classified `rejection`
keeps `offer`. -/
theorem apply_email_event_spec (store : Store) (record_id : ℕ)
    (cat : Category) (r : ApplicationRecord)
    (hfind : store.records.find? (fun x => x.id = record_id) = some r) :
    ((r.status = ApplicationStatus.offer ∨
        r.status = ApplicationStatus.rejected ∨
        r.status = ApplicationStatus.withdrawn) →
      apply_email_event store record_id cat = .ok (store, none)) ∧
    (∀ store2 ch, apply_email_event store record_id cat = .ok (store2, ch) →
      ∀ x2 ∈ store2.records, x2.status = ApplicationStatus.withdrawn →
        ∃ x ∈ store.records, x.id = x2.id ∧
          x.status = ApplicationStatus.withdrawn) := by
  constructor
  · intro hterm
    unfold apply_email_event
    rw [hfind]
    dsimp only
    rcases hcat : categoryToStatus cat with _ | target
    · rfl
    · dsimp only
      rw [if_neg (by simp [terminal_no_valid r.status target hterm])]
  · intro store2 ch h x2 hx2 hw
    unfold apply_email_event at h
    rw [hfind] at h
    dsimp only at h
    rcases hcat : categoryToStatus cat with _ | target
    · rw [hcat] at h
      dsimp only at h
      obtain ⟨rfl, -⟩ := Prod.mk.injEq .. ▸ Except.ok.inj h
      exact ⟨x2, hx2, rfl, hw⟩
    · rw [hcat] at h
      dsimp only at h
      by_cases hv : validTransition r.status target = true
      · rw [if_pos hv] at h
        obtain ⟨h1, -⟩ := Prod.mk.injEq .. ▸ Except.ok.inj h
        rw [← h1] at hx2
        simp only [setStatus, List.mem_map] at hx2
        obtain ⟨x, hxmem, hxeq⟩ := hx2
        by_cases hid : x.id = record_id
        · rw [if_pos hid] at hxeq
          exfalso
          have htw : target ≠ ApplicationStatus.withdrawn :=
            validTransition_target_ne_withdrawn r.status target hv
          apply htw
          rw [← hw, ← hxeq]
        · rw [if_neg hid] at hxeq
          exact ⟨x, hxmem, by rw [hxeq], by rw [hxeq]; exact hw⟩
      · rw [if_neg hv] at h
        obtain ⟨rfl, -⟩ := Prod.mk.injEq .. ▸ Except.ok.inj h
        exact ⟨x2, hx2, rfl, hw⟩

/-- Witness for C5: on the empty store the lookup returns `none`; on a
one-record store it returns the record, whose company fingerprint is
identical and whose title similarity passes. -/
theorem find_duplicate_spec_witness :
    find_duplicate demoFingerprint emptyStore = none ∧
    (∃ r ∈ demoStoreOffer.records, r.id = 0 ∧
      r.status ≠ ApplicationStatus.withdrawn ∧
      r.fingerprint.companyTokens = demoFingerprint.companyTokens ∧
      titleSimilar r.fingerprint.titleTokens demoFingerprint.titleTokens =
        true) :=
  ⟨(find_duplicate_spec demoFingerprint emptyStore).1 rfl,
   (find_duplicate_spec demoFingerprint demoStoreOffer).2 0 (by decide)⟩

/-- Witness for C3: a store holding a single `offer` record that receives an
email classified `rejection` is returned unchanged with no status change. -/
theorem apply_email_event_spec_witness :
    apply_email_event demoStoreOffer 0 Category.rejection =
      .ok (demoStoreOffer, none) :=
  (apply_email_event_spec demoStoreOffer 0 Category.rejection demoRecordOffer
      (by decide)).1 (Or.inl rfl)

end CareerPlatform
